import Mathlib

/-!
Shallow embedding, in Lean 4, of the execution-and-binding layer of a
code-acting agent.  The embedded functions are translated from the Python
sources:

* `make_safe_function_name`, `safe_repr` and the parameter-list portion of
  the stub generators, from `agent/virtual_assistant/create_pyodide_eval_fn.py`;
* the outcome classification of `async_eval_fn` (the Execution Session's
  `eval` function), from the same file;
* `select_relevant_tools`, from `agent/virtual_assistant/tool_selection.py`.

Python strings are modelled as `List Char` where character-level reasoning
is needed and as Lean `String` elsewhere; Python dictionaries are modelled
as association lists; machine-level concerns (asynchrony, logging, file
persistence of the executed code) are not modelled because no claim
depends on them.
-/

namespace CodeActAgent

/-! ### Characters used throughout

Named constants for characters whose literals would be awkward inline. -/

/-- The single-quote character. -/
def sqC : Char := Char.ofNat 39

/-- The backslash character. -/
def bsC : Char := Char.ofNat 92

/-- The newline character. -/
def nlC : Char := Char.ofNat 10

/-- The carriage-return character. -/
def crC : Char := Char.ofNat 13

/-- The horizontal-tab character. -/
def tabC : Char := Char.ofNat 9

/-- The double-quote character. -/
def dqC : Char := Char.ofNat 34

/-- The opening-brace character. -/
def lbC : Char := Char.ofNat 123

/-- The closing-brace character. -/
def rbC : Char := Char.ofNat 125

/-! ### Safe-Name Mapper

`make_safe_function_name` (create_pyodide_eval_fn.py, lines 57-67):
`re.sub(r'[^a-zA-Z0-9_]', '_', name)`, then prefix `tool_` when the result
starts with a digit, then fall back to `unnamed_tool` when empty. -/

/-- A character matched by the Python character class `[a-zA-Z0-9_]`. -/
def isSafeChar (c : Char) : Bool :=
  (Char.ofNat 97 ≤ c && c ≤ Char.ofNat 122) ||
  (Char.ofNat 65 ≤ c && c ≤ Char.ofNat 90) ||
  (Char.ofNat 48 ≤ c && c ≤ Char.ofNat 57) ||
  c == Char.ofNat 95

/-- `re.sub(r'[^a-zA-Z0-9_]', '_', name)`: every character outside the class
is replaced by an underscore. -/
def pySub (name : List Char) : List Char :=
  name.map fun c => if isSafeChar c then c else Char.ofNat 95

/-- `make_safe_function_name` from create_pyodide_eval_fn.py: substitution,
digit-guard prefix, empty-name fallback.  `Char.isDigit` agrees with
Python's `str.isdigit` on the ASCII alphabet produced by `pySub`. -/
def make_safe_function_name (name : List Char) : List Char :=
  let safe_name := pySub name
  let guarded :=
    match safe_name with
    | [] => ([] : List Char)
    | c :: rest => if c.isDigit then "tool_".toList ++ (c :: rest) else c :: rest
  if guarded = [] then "unnamed_tool".toList else guarded

/-! ### The representation function `safe_repr`

`safe_repr` (create_pyodide_eval_fn.py, lines 42-55) renders a Python value
as source text: a string containing a newline or carriage return becomes a
triple-single-quoted literal with internal occurrences of the
triple-quote sequence escaped; dicts and lists are rendered recursively
element by element (dict keys with plain `repr`); everything else falls
back to `repr`. -/

/-- The replacement `obj.replace("'''", "\\'\\'\\'")`: each leftmost,
non-overlapping occurrence of three single quotes becomes three
backslash-quote pairs; all other characters pass through. -/
def escape3 : List Char → List Char
  | a :: b :: c :: rest =>
    if a = sqC ∧ b = sqC ∧ c = sqC then
      [bsC, sqC, bsC, sqC, bsC, sqC] ++ escape3 rest
    else
      a :: escape3 (b :: c :: rest)
  | l => l

/-- A Python value, as far as `safe_repr` distinguishes values: strings,
integers, booleans, `None`, lists and dicts.  Self-referential objects,
which have no finite tree representation, are outside the model. -/
inductive PyVal where
  | pstr (s : List Char)
  | pint (n : Int)
  | pbool (b : Bool)
  | pnone
  | plist (xs : List PyVal)
  | pdict (kvs : List (PyVal × PyVal))

/-- One character of a single-line Python string repr with quote character
`q`: backslash, the quote, newline, carriage return and tab are escaped,
all other characters pass through (non-printable characters beyond these
are outside the model). -/
def pyReprChar (q : Char) (c : Char) : List Char :=
  if c = bsC then [bsC, bsC]
  else if c = q then [bsC, q]
  else if c = nlC then [bsC, Char.ofNat 110]
  else if c = crC then [bsC, Char.ofNat 114]
  else if c = tabC then [bsC, Char.ofNat 116]
  else [c]

/-- Python `repr` of a string: single quotes unless the string contains a
single quote and no double quote. -/
def pyReprStr (s : List Char) : List Char :=
  let q := if s.contains sqC && !(s.contains dqC) then dqC else sqC
  q :: (s.map (pyReprChar q)).flatten ++ [q]

/-- Python `repr` restricted to the atomic values `safe_repr` falls back
on.  `safe_repr` matches dicts and lists before reaching `repr`, and dict
keys must be hashable, so the container cases are unreachable from
`safe_repr` and are rendered as their element-wise repr is never needed;
they return the empty text. -/
def pyReprAtom : PyVal → List Char
  | .pstr s => pyReprStr s
  | .pint n => (toString n).toList
  | .pbool b => if b then "True".toList else "False".toList
  | .pnone => "None".toList
  | .plist _ => []
  | .pdict _ => []

mutual

/-- `safe_repr` from create_pyodide_eval_fn.py.  A string containing a
newline or carriage return is rendered as a triple-quoted literal around
`escape3` of the string; dicts render each pair as `repr(key): safe_repr(value)`,
lists render each item with `safe_repr`; other values use `repr`. -/
def safe_repr : PyVal → List Char
  | .pstr s =>
    if s.contains nlC || s.contains crC then
      [sqC, sqC, sqC] ++ escape3 s ++ [sqC, sqC, sqC]
    else
      pyReprAtom (.pstr s)
  | .pdict kvs => lbC :: List.intercalate (", ".toList) (safeReprPairs kvs) ++ [rbC]
  | .plist xs => '[' :: List.intercalate (", ".toList) (safeReprItems xs) ++ [']']
  | v => pyReprAtom v

/-- The item renderings of a list, in order (`[safe_repr(item) for item in obj]`). -/
def safeReprItems : List PyVal → List (List Char)
  | [] => []
  | x :: xs => safe_repr x :: safeReprItems xs

/-- The pair renderings of a dict, in order (`f"{repr(k)}: {safe_repr(v)}"`). -/
def safeReprPairs : List (PyVal × PyVal) → List (List Char)
  | [] => []
  | (k, v) :: kvs => (pyReprAtom k ++ ": ".toList ++ safe_repr v) :: safeReprPairs kvs

end

/-! ### Evaluation of a rendered literal

To state the round-trip property of `safe_repr` on multi-line strings we
model how CPython evaluates a source text consisting of one
triple-single-quoted string literal.  The tokenizer consumes the opening
quotes, then content characters, where a backslash escapes the following
character and the first unescaped occurrence of three single quotes closes
the literal; the literal must extend to the very end of the text (trailing
characters after the closing quotes, including Python's implicit
adjacent-literal concatenation, make the text no longer a single literal
evaluating to the rendered string and are rejected here).  Octal, hex and
unicode escapes are not modelled; the theorems below avoid them through
their no-backslash hypotheses. -/

/-- The decoding of one backslash escape `\\d`: the escapes that can occur
in the texts treated here (`\\'`, `\\\\`, a double quote, `n`, `r`, `t`);
an unrecognized escape keeps the backslash, as CPython does. -/
def decodeEsc (d : Char) : List Char :=
  if d = sqC then [sqC]
  else if d = bsC then [bsC]
  else if d = dqC then [dqC]
  else if d = Char.ofNat 110 then [nlC]
  else if d = Char.ofNat 114 then [crC]
  else if d = Char.ofNat 116 then [tabC]
  else [bsC, d]

/-- Content of a triple-single-quoted literal after the opening quotes:
escape processing until the first unescaped `'''`, which must end the
text.  `Option.none` is a syntax error (unterminated literal, dangling
escape, or trailing characters).  A one-character remainder is always
unterminated: a final backslash dangles and any other final character
leaves the literal unclosed. -/
def decodeBody : List Char → Option (List Char)
  | [] => Option.none
  | [_] => Option.none
  | c :: d :: rest =>
    if c = bsC then
      (decodeBody rest).map (fun l => decodeEsc d ++ l)
    else if c = sqC ∧ (d :: rest).take 2 = [sqC, sqC] then
      if (d :: rest).drop 2 = [] then Option.some [] else Option.none
    else
      (decodeBody (d :: rest)).map (fun l => c :: l)

/-- Evaluation of a source text as a single triple-single-quoted string
literal: opening `'''`, then `decodeBody`. -/
def pyEvalTripleSq (t : List Char) : Option (List Char) :=
  if t.take 3 = [sqC, sqC, sqC] then decodeBody (t.drop 3) else Option.none

/-! ### The Execution Session's eval function

`async_eval_fn` (create_pyodide_eval_fn.py, lines 324-433).  The code
string, the generated wrapper and the context re-materialization do not
influence which outcome branch is taken, so the embedding abstracts the
backend interaction into an `EvalWorld`: whether the module-level sandbox
was constructed, and what the dispatch to `sandbox.execute` did.  Binding
values are opaque to every branch and are modelled by their string
rendering. -/

/-- The `result` field of a sandbox response: the locals snapshot of the
wrapper (a dict), or a non-mapping value, on which `result.items()` raises
an `AttributeError` whose repr is `errRepr`. -/
inductive SandboxResult where
  | pyDict (entries : List (String × String))
  | nonDict (errRepr : String)

/-- What the dispatch step did: raised (transport failure, file-system
failure inside `sandbox.execute`, non-mapping `result.items()` aside), or
returned a response carrying stderr, stdout and an optional result
(`None` becomes the empty dict via `response.result or {}`). -/
inductive DispatchOutcome where
  | raises (excRepr : String)
  | responds (stderr : String) (stdout : String) (result : Option SandboxResult)

/-- The state `async_eval_fn` observes: whether the module-level
`PyodideSandbox` construction succeeded, and the dispatch outcome. -/
structure EvalWorld where
  sandboxOk : Bool
  outcome : DispatchOutcome

/-- Python `k.startswith("_")`: the first character, when there is one, is
an underscore. -/
def underscore_prefixed (k : String) : Bool :=
  k.toList.take 1 == [Char.ofNat 95]

/-- The static message returned when the sandbox was never constructed. -/
def sandbox_missing_msg : String :=
  "Error: PyodideSandbox is not properly initialized. Please check your environment setup and ensure langchain-sandbox is properly installed."

/-- The sentinel output when the response printed nothing to stdout. -/
def no_output_msg : String := "<Code ran, no output printed to stdout>"

/-- `async_eval_fn`: outcome classification and binding diff, translated
branch for branch from create_pyodide_eval_fn.py lines 375-431. -/
def async_eval_fn (w : EvalWorld) (pyLocals : List (String × String)) :
    String × List (String × String) :=
  if w.sandboxOk = false then (sandbox_missing_msg, [])
  else
    match w.outcome with
    | .raises excRepr => ("Error during PyodideSandbox execution: " ++ excRepr, [])
    | .responds stderr stdout result =>
      if stderr ≠ "" then ("Error during execution: " ++ stderr, [])
      else
        let output := if stdout ≠ "" then stdout else no_output_msg
        match result.getD (.pyDict []) with
        | .nonDict errRepr => ("Error during PyodideSandbox execution: " ++ errRepr, [])
        | .pyDict entries =>
          match entries.lookup "error" with
          | Option.some msg => ("Error during execution: " ++ msg, [])
          | Option.none =>
            (output, entries.filter fun kv =>
              (pyLocals.lookup kv.1).isNone && !(underscore_prefixed kv.1))

/-! ### The Relevance Selector

`select_relevant_tools` (tool_selection.py, lines 31-159).  Messages are
opaque (only emptiness of the history matters); the reflection model call
together with `sanitize_json_output` is abstracted into a `ModelOutcome`. -/

/-- A tool as the selector sees it: its name decides selection. -/
structure FastMCPTool where
  name : String
  description : String
deriving DecidableEq

/-- A parsed JSON-like value as returned by `sanitize_json_output`
(json_repair with `return_objects=True`). -/
inductive Jsonish where
  | jstr (s : String)
  | jnum (n : Int)
  | jbool (b : Bool)
  | jnull
  | jarr (xs : List Jsonish)
  | jobj (fields : List (String × Jsonish))

/-- Python `tool.name in selected_tool_names`: equality of a string with a
JSON element, false on every non-string element. -/
def jsonEqStr : Jsonish → String → Bool
  | .jstr s, t => s == t
  | _, _ => false

/-- What the guarded part of `select_relevant_tools` did: the model call
itself raised, `sanitize_json_output` raised, or a value was parsed. -/
inductive ModelOutcome where
  | invokeRaises
  | parseRaises
  | parsed (v : Jsonish)

/-- `select_relevant_tools`, translated branch for branch from
tool_selection.py: empty-history and empty-catalog short-circuits, the
fail-open paths, truncation to `max_tools`, the catalog filter, and the
final empty-selection fail-open. -/
def select_relevant_tools (messages : List String)
    (available_tools : List FastMCPTool) (max_tools : Nat)
    (outcome : ModelOutcome) : List FastMCPTool :=
  if messages = [] then available_tools
  else if available_tools = [] then []
  else
    match outcome with
    | .invokeRaises => available_tools
    | .parseRaises => available_tools
    | .parsed v =>
      match v with
      | .jobj fields =>
        match fields.lookup "tool_names" with
        | Option.some (.jarr names) =>
          let selected_tool_names :=
            if names.length > max_tools then names.take max_tools else names
          let selected_tools := available_tools.filter fun t =>
            selected_tool_names.any fun j => jsonEqStr j t.name
          if selected_tools = [] then available_tools else selected_tools
        | Option.some _ => available_tools
        | Option.none => available_tools
      | _ => available_tools

/-! ### The stub generators' parameter lists

The parameter-list computation of `create_composio_tool_functions`
(create_pyodide_eval_fn.py, lines 111-142), identical in
`create_composio_prompt_functions` (lines 246-277). -/

/-- One property of `parameterSchema.properties`: the `type` keyword (absent
when the key is missing) and the `default` (Lean `none` covers both a
missing key and a JSON null, since the code tests `default_value is not None`). -/
structure ParamInfo where
  typeKw : Option String
  defaultVal : Option PyVal

/-- The type-keyword translation of lines 120-131: a missing keyword
defaults to `str` via `param_info.get('type', 'str')`; the five known
keywords are rewritten; any other keyword passes through unchanged. -/
def pyTypeName (t : Option String) : String :=
  match t with
  | Option.none => "str"
  | Option.some s =>
    if s = "string" then "str"
    else if s = "integer" then "int"
    else if s = "boolean" then "bool"
    else if s = "array" then "list"
    else if s = "object" then "dict"
    else s

/-- One rendered parameter: `f"{param_name}: {param_type}"`, with
`" = {safe_repr(default_value)}"` appended when a default is present. -/
def renderParam (name : String) (info : ParamInfo) : String :=
  match info.defaultVal with
  | Option.some d =>
    name ++ ": " ++ pyTypeName info.typeKw ++ " = " ++ String.mk (safe_repr d)
  | Option.none => name ++ ": " ++ pyTypeName info.typeKw

/-- The loop of lines 120-139: parameters without a default are appended
to `required_params`, parameters with a default to `optional_params`, in
property order. -/
def buildParamLists (properties : List (String × ParamInfo)) :
    List String × List String :=
  properties.foldl
    (fun acc p =>
      match p.2.defaultVal with
      | Option.some _ => (acc.1, acc.2 ++ [renderParam p.1 p.2])
      | Option.none => (acc.1 ++ [renderParam p.1 p.2], acc.2))
    ([], [])

/-- `param_list = required_params + optional_params` (line 141). -/
def param_list (properties : List (String × ParamInfo)) : List String :=
  (buildParamLists properties).1 ++ (buildParamLists properties).2

/-- `param_str = ", ".join(param_list)` (line 142). -/
def param_str (properties : List (String × ParamInfo)) : String :=
  String.intercalate ", " (param_list properties)

/-- The parameter list as the specification words it, for comparison with
`param_list`: the parameters whose names appear in the schema `required`
list first (no default rendered), then the remaining parameters, each
carrying its default literal. -/
def specParamList (properties : List (String × ParamInfo))
    (required : List String) : List String :=
  (properties.filter fun p => required.contains p.1).map
      (fun p => p.1 ++ ": " ++ pyTypeName p.2.typeKw) ++
    (properties.filter fun p => !(required.contains p.1)).map
      (fun p => renderParam p.1 p.2)

/-! ## Theorems -/

/-! ### Safe-Name Mapper -/

/-- Every character of a substituted name lies in `[a-zA-Z0-9_]`. -/
theorem pySub_safe (name : List Char) : ∀ c ∈ pySub name, isSafeChar c = true := by
  intro c hc
  rcases List.mem_map.mp hc with ⟨a, _, rfl⟩
  by_cases h : isSafeChar a = true
  · rw [if_pos h]
    exact h
  · simp only [h, Bool.false_eq_true, if_false]
    decide

/-- A name all of whose characters are safe is left unchanged by `pySub`. -/
theorem pySub_id_of_safe (n : List Char) (h : ∀ c ∈ n, isSafeChar c = true) :
    pySub n = n := by
  induction n with
  | nil => rfl
  | cons a t ih =>
    have ha : isSafeChar a = true := h a (List.mem_cons_self a t)
    have ht : pySub t = t := ih fun c hc => h c (List.mem_cons_of_mem a hc)
    simp [pySub, ha] at ht ⊢
    exact ht

/-- A nonempty name of safe characters not starting with a digit is a fixed
point of `make_safe_function_name`. -/
theorem make_safe_fixed (n : List Char) (h1 : ∀ c ∈ n, isSafeChar c = true)
    (h2 : n ≠ []) (h3 : ∀ c ∈ n.take 1, c.isDigit = false) :
    make_safe_function_name n = n := by
  cases n with
  | nil => exact absurd rfl h2
  | cons a t =>
    have hsub : pySub (a :: t) = a :: t := pySub_id_of_safe _ h1
    have hda : a.isDigit = false := h3 a (by simp)
    simp [make_safe_function_name, hsub, hda]

/-- Claim C8: `make_safe_function_name` is total and deterministic (it is a
function of the model), and its result contains only characters in
`[A-Za-z0-9_]`, is never empty, and never starts with a digit. -/
theorem claim_c8_safe_name (name : List Char) :
    (∀ c ∈ make_safe_function_name name, isSafeChar c = true) ∧
    make_safe_function_name name ≠ [] ∧
    (∀ c ∈ (make_safe_function_name name).take 1, c.isDigit = false) := by
  rcases hp : pySub name with _ | ⟨c, rest⟩
  · simp only [make_safe_function_name, hp]
    decide
  · by_cases hd : c.isDigit = true
    · have hres : make_safe_function_name name = "tool_".toList ++ (c :: rest) := by
        simp [make_safe_function_name, hp, hd]
      rw [hres]
      refine ⟨?_, by simp, ?_⟩
      · intro x hx
        rcases List.mem_append.mp hx with h | h
        · exact List.all_eq_true.mp (by decide) x h
        · exact pySub_safe name x (by rw [hp]; exact h)
      · intro x hx
        have htool : ("tool_".toList ++ (c :: rest)).take 1 = [Char.ofNat 116] := by
          have h5 : "tool_".toList = Char.ofNat 116 :: "ool_".toList := by decide
          rw [h5]
          rfl
        rw [htool] at hx
        have hxc : x = Char.ofNat 116 := List.mem_singleton.mp hx
        subst hxc
        decide
    · have hres : make_safe_function_name name = c :: rest := by
        simp [make_safe_function_name, hp, hd]
      rw [hres]
      refine ⟨?_, by simp, ?_⟩
      · intro x hx
        exact pySub_safe name x (by rw [hp]; exact hx)
      · intro x hx
        have hxc : x = c := List.mem_singleton.mp (by simpa using hx)
        subst hxc
        exact Bool.eq_false_iff.mpr hd

/-- Witness for C8 at the raw name `9ab`: the result `tool_9ab` has a safe
first character `t`, is nonempty, and does not start with a digit. -/
theorem claim_c8_witness :
    isSafeChar (Char.ofNat 116) = true ∧
    make_safe_function_name ("9ab".toList) ≠ [] ∧
    (Char.ofNat 116).isDigit = false :=
  ⟨(claim_c8_safe_name ("9ab".toList)).1 (Char.ofNat 116) (by decide),
   (claim_c8_safe_name ("9ab".toList)).2.1,
   (claim_c8_safe_name ("9ab".toList)).2.2 (Char.ofNat 116) (by decide)⟩

/-- Counterexample to C9: two distinct raw names that the mapper sends to
the same identifier, so the safe-name mapping is not injective on any
catalog snapshot containing both. -/
theorem claim_c9_counterexample :
    make_safe_function_name ("a-b".toList) = make_safe_function_name ("a.b".toList) ∧
    "a-b".toList ≠ "a.b".toList := by decide

/-- Claim C9 (amended): the mapping is injective on raw names that are
already legal identifiers (only safe characters, nonempty, no leading
digit) — such names are fixed points — but not on arbitrary raw names. -/
theorem claim_c9_injective_on_safe (n m : List Char)
    (hn1 : ∀ c ∈ n, isSafeChar c = true) (hn2 : n ≠ [])
    (hn3 : ∀ c ∈ n.take 1, c.isDigit = false)
    (hm1 : ∀ c ∈ m, isSafeChar c = true) (hm2 : m ≠ [])
    (hm3 : ∀ c ∈ m.take 1, c.isDigit = false) :
    make_safe_function_name n = n ∧
    (make_safe_function_name n = make_safe_function_name m → n = m) := by
  have h1 := make_safe_fixed n hn1 hn2 hn3
  have h2 := make_safe_fixed m hm1 hm2 hm3
  refine ⟨h1, fun h => ?_⟩
  rw [h1, h2] at h
  exact h

/-- Witness for the amended C9 at the already-safe names `ab` and `cd`. -/
theorem claim_c9_witness :
    make_safe_function_name ("ab".toList) = "ab".toList ∧
    (make_safe_function_name ("ab".toList) = make_safe_function_name ("cd".toList) →
      "ab".toList = "cd".toList) :=
  claim_c9_injective_on_safe "ab".toList "cd".toList (by decide) (by decide)
    (by decide) (by decide) (by decide) (by decide)

/-! ### Execution Session -/

/-- The bindings component of an eval outcome is either empty (every error
branch) or the filtered diff of the success branch. -/
theorem async_eval_fn_snd_cases (w : EvalWorld) (pyLocals : List (String × String)) :
    (async_eval_fn w pyLocals).2 = [] ∨
    ∃ entries : List (String × String), (async_eval_fn w pyLocals).2 =
      entries.filter fun kv => (pyLocals.lookup kv.1).isNone && !(underscore_prefixed kv.1) := by
  obtain ⟨ok, outcome⟩ := w
  cases ok with
  | false => left; simp [async_eval_fn]
  | true =>
    cases outcome with
    | raises e => left; simp [async_eval_fn]
    | responds stderr stdout result =>
      by_cases hst : stderr = ""
      · cases result with
        | none => left; simp [async_eval_fn, hst]
        | some r =>
          cases r with
          | pyDict entries =>
            cases hl : entries.lookup "error" with
            | none => right; exact ⟨entries, by simp [async_eval_fn, hst, hl]⟩
            | some msg => left; simp [async_eval_fn, hst, hl]
          | nonDict e => left; simp [async_eval_fn, hst]
      · left; simp [async_eval_fn, hst]

/-- Claim C1: every binding returned by the eval function has a key absent
from the supplied locals and without an underscore prefix (in error
branches the returned bindings are empty, so this holds for every call). -/
theorem claim_c1_binding_diff (w : EvalWorld) (pyLocals : List (String × String)) :
    ∀ kv ∈ (async_eval_fn w pyLocals).2,
      pyLocals.lookup kv.1 = Option.none ∧ underscore_prefixed kv.1 = false := by
  intro kv hkv
  rcases async_eval_fn_snd_cases w pyLocals with h | ⟨entries, h⟩
  · rw [h] at hkv
    cases hkv
  · rw [h] at hkv
    have hp := List.of_mem_filter hkv
    rcases Bool.and_eq_true _ _ |>.mp hp with ⟨h1, h2⟩
    refine ⟨Option.isNone_iff_eq_none.mp h1, ?_⟩
    simpa using h2

/-- Witness for C1: a concrete success outcome whose result snapshot holds
a carried-over key, a fresh key and an underscore key; the returned
binding `y` is absent from the prior locals and not underscore-prefixed. -/
theorem claim_c1_witness :
    ([("x", "0")] : List (String × String)).lookup "y" = Option.none ∧
    underscore_prefixed "y" = false :=
  claim_c1_binding_diff
    ⟨true, .responds "" "out" (Option.some (.pyDict [("x", "1"), ("y", "2"), ("_t", "3")]))⟩
    [("x", "0")] ("y", "2") (by decide)

/-- Claim C2: the eval function returns a pair in every case — a static
message when the sandbox was never constructed, an error string carrying
the stderr stream when it is non-empty, an error string carrying the
message of a raising wrapped routine, and an error string rendering any
exception of the dispatch step — and in each of these error cases the
returned bindings are empty.  Totality itself is definitional: the
embedding is a function into `String × List (String × String)`. -/
theorem claim_c2_eval_outcomes (w : EvalWorld) (pyLocals : List (String × String)) :
    (w.sandboxOk = false → async_eval_fn w pyLocals = (sandbox_missing_msg, [])) ∧
    (∀ e, w.sandboxOk = true → w.outcome = .raises e →
      async_eval_fn w pyLocals = ("Error during PyodideSandbox execution: " ++ e, [])) ∧
    (∀ stderr stdout result, w.sandboxOk = true →
      w.outcome = .responds stderr stdout result → stderr ≠ "" →
      async_eval_fn w pyLocals = ("Error during execution: " ++ stderr, [])) ∧
    (∀ stderr stdout entries msg, w.sandboxOk = true →
      w.outcome = .responds stderr stdout (Option.some (.pyDict entries)) → stderr = "" →
      entries.lookup "error" = Option.some msg →
      async_eval_fn w pyLocals = ("Error during execution: " ++ msg, [])) := by
  refine ⟨?_, ?_, ?_, ?_⟩
  · intro h
    simp [async_eval_fn, h]
  · intro e h1 h2
    simp [async_eval_fn, h1, h2]
  · intro stderr stdout result h1 h2 h3
    simp [async_eval_fn, h1, h2, h3]
  · intro stderr stdout entries msg h1 h2 h3 h4
    simp [async_eval_fn, h1, h2, h3, h4]

/-- Witness for C2: each of the four error classifications at a concrete
world. -/
theorem claim_c2_witness :
    async_eval_fn ⟨false, .raises "boom"⟩ [] = (sandbox_missing_msg, []) ∧
    async_eval_fn ⟨true, .raises "boom"⟩ [] =
      ("Error during PyodideSandbox execution: " ++ "boom", []) ∧
    async_eval_fn ⟨true, .responds "err" "out" Option.none⟩ [] =
      ("Error during execution: " ++ "err", []) ∧
    async_eval_fn ⟨true, .responds "" "out" (Option.some (.pyDict [("error", "E")]))⟩ [] =
      ("Error during execution: " ++ "E", []) :=
  ⟨(claim_c2_eval_outcomes ⟨false, .raises "boom"⟩ []).1 rfl,
   (claim_c2_eval_outcomes ⟨true, .raises "boom"⟩ []).2.1 "boom" rfl rfl,
   (claim_c2_eval_outcomes ⟨true, .responds "err" "out" Option.none⟩ []).2.2.1
     "err" "out" Option.none rfl rfl (by decide),
   (claim_c2_eval_outcomes ⟨true, .responds "" "out"
       (Option.some (.pyDict [("error", "E")]))⟩ []).2.2.2
     "" "out" [("error", "E")] "E" rfl rfl rfl (by decide)⟩

/-! ### Relevance Selector -/

/-- The selector's result is the full catalog, the empty list, or a filter
of the catalog. -/
theorem select_relevant_tools_cases (messages : List String)
    (ts : List FastMCPTool) (mt : Nat) (o : ModelOutcome) :
    select_relevant_tools messages ts mt o = ts ∨
    select_relevant_tools messages ts mt o = [] ∨
    ∃ p : FastMCPTool → Bool, select_relevant_tools messages ts mt o = ts.filter p := by
  unfold select_relevant_tools
  by_cases h1 : messages = []
  · rw [if_pos h1]
    left
    rfl
  · rw [if_neg h1]
    by_cases h2 : ts = []
    · rw [if_pos h2]
      right
      left
      rfl
    · rw [if_neg h2]
      cases o with
      | invokeRaises => left; rfl
      | parseRaises => left; rfl
      | parsed v =>
        cases v with
        | jobj fields =>
          cases hf : fields.lookup "tool_names" with
          | none => left; simp [hf]
          | some tn =>
            cases tn with
            | jarr names =>
              by_cases hsel : (ts.filter fun t =>
                  (if names.length > mt then names.take mt else names).any
                    fun j => jsonEqStr j t.name) = []
              · left
                simp only [hf]
                rw [if_pos hsel]
              · right
                right
                refine ⟨(fun t =>
                  (if names.length > mt then names.take mt else names).any
                    fun j => jsonEqStr j t.name), ?_⟩
                simp only [hf]
                rw [if_neg hsel]
            | jstr s => left; simp [hf]
            | jnum n => left; simp [hf]
            | jbool b => left; simp [hf]
            | jnull => left; simp [hf]
            | jobj fs => left; simp [hf]
        | jstr s => left; rfl
        | jnum n => left; rfl
        | jbool b => left; rfl
        | jnull => left; rfl
        | jarr xs => left; rfl

/-- Claim C10: the selector's result is always an order-preserving sublist
of the input catalog (hence no duplication, no reordering, no foreign
elements), and its length never exceeds the catalog's. -/
theorem claim_c10_sublist (messages : List String) (ts : List FastMCPTool)
    (mt : Nat) (o : ModelOutcome) :
    (select_relevant_tools messages ts mt o).Sublist ts ∧
    (select_relevant_tools messages ts mt o).length ≤ ts.length := by
  have hsub : (select_relevant_tools messages ts mt o).Sublist ts := by
    rcases select_relevant_tools_cases messages ts mt o with h | h | ⟨p, h⟩
    · rw [h]
    · rw [h]
      exact List.nil_sublist ts
    · rw [h]
      exact List.filter_sublist ts
  exact ⟨hsub, hsub.length_le⟩

/-- Claim C4: the selector fails open.  It returns the input catalog when
the message history is empty (for every model outcome, so no model call is
consulted), when the model invocation raises, when the response fails to
parse, when the parsed verdict is not a mapping, when the mapping lacks a
`tool_names` entry, when `tool_names` is not a list, and when no catalog
name matches the selected names; and it returns the empty list exactly
when the catalog is empty (with a nonempty history). -/
theorem claim_c4_fail_open (messages : List String) (ts : List FastMCPTool) (mt : Nat) :
    (messages = [] → ∀ o, select_relevant_tools messages ts mt o = ts) ∧
    (messages ≠ [] → ts = [] → ∀ o, select_relevant_tools messages ts mt o = []) ∧
    (select_relevant_tools messages ts mt .invokeRaises = ts) ∧
    (select_relevant_tools messages ts mt .parseRaises = ts) ∧
    (∀ v, (∀ fields, v ≠ .jobj fields) →
      select_relevant_tools messages ts mt (.parsed v) = ts) ∧
    (∀ fields, fields.lookup "tool_names" = Option.none →
      select_relevant_tools messages ts mt (.parsed (.jobj fields)) = ts) ∧
    (∀ fields tn, fields.lookup "tool_names" = Option.some tn →
      (∀ xs, tn ≠ .jarr xs) →
      select_relevant_tools messages ts mt (.parsed (.jobj fields)) = ts) ∧
    (∀ fields names, fields.lookup "tool_names" = Option.some (.jarr names) →
      (ts.filter fun t =>
        (if names.length > mt then names.take mt else names).any
          fun j => jsonEqStr j t.name) = [] →
      select_relevant_tools messages ts mt (.parsed (.jobj fields)) = ts) := by
  by_cases h1 : messages = []
  · refine ⟨fun _ o => by simp [select_relevant_tools, h1], fun hm => absurd h1 hm, ?_, ?_, ?_, ?_, ?_, ?_⟩
    · simp [select_relevant_tools, h1]
    · simp [select_relevant_tools, h1]
    · intro v _
      simp [select_relevant_tools, h1]
    · intro fields _
      simp [select_relevant_tools, h1]
    · intro fields tn _ _
      simp [select_relevant_tools, h1]
    · intro fields names _ _
      simp [select_relevant_tools, h1]
  · by_cases h2 : ts = []
    · subst h2
      refine ⟨fun hm => absurd hm h1, fun _ _ o => by simp [select_relevant_tools, h1], ?_, ?_, ?_, ?_, ?_, ?_⟩
      · rcases select_relevant_tools_cases messages [] mt .invokeRaises with h | h | ⟨p, h⟩ <;> simp [h]
      · rcases select_relevant_tools_cases messages [] mt .parseRaises with h | h | ⟨p, h⟩ <;> simp [h]
      · intro v _
        rcases select_relevant_tools_cases messages [] mt (.parsed v) with h | h | ⟨p, h⟩ <;> simp [h]
      · intro fields _
        rcases select_relevant_tools_cases messages [] mt (.parsed (.jobj fields)) with h | h | ⟨p, h⟩ <;> simp [h]
      · intro fields tn _ _
        rcases select_relevant_tools_cases messages [] mt (.parsed (.jobj fields)) with h | h | ⟨p, h⟩ <;> simp [h]
      · intro fields names _ _
        rcases select_relevant_tools_cases messages [] mt (.parsed (.jobj fields)) with h | h | ⟨p, h⟩ <;> simp [h]
    · refine ⟨fun hm => absurd hm h1, fun _ hm => absurd hm h2, ?_, ?_, ?_, ?_, ?_, ?_⟩
      · simp [select_relevant_tools, h1, h2]
      · simp [select_relevant_tools, h1, h2]
      · intro v hv
        unfold select_relevant_tools
        rw [if_neg h1, if_neg h2]
        cases v with
        | jobj fields => exact absurd rfl (hv fields)
        | jstr s => rfl
        | jnum n => rfl
        | jbool b => rfl
        | jnull => rfl
        | jarr xs => rfl
      · intro fields hf
        unfold select_relevant_tools
        rw [if_neg h1, if_neg h2]
        simp [hf]
      · intro fields tn hf htn
        unfold select_relevant_tools
        rw [if_neg h1, if_neg h2]
        cases tn with
        | jarr xs => exact absurd rfl (htn xs)
        | jstr s => simp [hf]
        | jnum n => simp [hf]
        | jbool b => simp [hf]
        | jnull => simp [hf]
        | jobj fs => simp [hf]
      · intro fields names hf hsel
        unfold select_relevant_tools
        rw [if_neg h1, if_neg h2]
        simp only [hf]
        rw [if_pos hsel]

/-- Witness for C4: each fail-open branch at a concrete catalog. -/
theorem claim_c4_witness :
    select_relevant_tools [] [⟨"a", "d"⟩] 15 .invokeRaises = [⟨"a", "d"⟩] ∧
    select_relevant_tools ["m"] ([] : List FastMCPTool) 15 .parseRaises = [] ∧
    select_relevant_tools ["m"] [⟨"a", "d"⟩] 15 (.parsed (.jstr "junk")) = [⟨"a", "d"⟩] ∧
    select_relevant_tools ["m"] [⟨"a", "d"⟩] 15
        (.parsed (.jobj [("task_plan", .jstr "p")])) = [⟨"a", "d"⟩] ∧
    select_relevant_tools ["m"] [⟨"a", "d"⟩] 15
        (.parsed (.jobj [("tool_names", .jstr "x")])) = [⟨"a", "d"⟩] ∧
    select_relevant_tools ["m"] [⟨"a", "d"⟩] 15
        (.parsed (.jobj [("tool_names", .jarr [.jstr "zzz", .jnum 3])])) = [⟨"a", "d"⟩] :=
  ⟨(claim_c4_fail_open [] [⟨"a", "d"⟩] 15).1 rfl .invokeRaises,
   (claim_c4_fail_open ["m"] [] 15).2.1 (by simp) rfl .parseRaises,
   (claim_c4_fail_open ["m"] [⟨"a", "d"⟩] 15).2.2.2.2.1 (.jstr "junk")
     (fun fields h => Jsonish.noConfusion h),
   (claim_c4_fail_open ["m"] [⟨"a", "d"⟩] 15).2.2.2.2.2.1
     [("task_plan", .jstr "p")] rfl,
   (claim_c4_fail_open ["m"] [⟨"a", "d"⟩] 15).2.2.2.2.2.2.1
     [("tool_names", .jstr "x")] (.jstr "x") rfl (fun xs h => Jsonish.noConfusion h),
   (claim_c4_fail_open ["m"] [⟨"a", "d"⟩] 15).2.2.2.2.2.2.2
     [("tool_names", .jarr [.jstr "zzz", .jnum 3])] [.jstr "zzz", .jnum 3] rfl (by decide)⟩

/-- Membership in the verdict's name list, through the string wrapper. -/
theorem sel_pred_iff (vs : List String) (mt : Nat) (t : FastMCPTool) :
    ((((vs.map Jsonish.jstr).take mt)).any fun j => jsonEqStr j t.name) = true ↔
      t.name ∈ vs.take mt := by
  rw [← List.map_take]
  constructor
  · intro h
    rcases List.any_eq_true.mp h with ⟨j, hj, hjt⟩
    rcases List.mem_map.mp hj with ⟨v, hv, rfl⟩
    have hvt : v = t.name := by simpa [jsonEqStr] using hjt
    exact hvt ▸ hv
  · intro h
    exact List.any_eq_true.mpr
      ⟨Jsonish.jstr t.name, List.mem_map.mpr ⟨t.name, h, rfl⟩, by simp [jsonEqStr]⟩

/-- Claim C5: with a verdict listing more names than `max_tools`, only the
first `max_tools` names (in verdict order) take part in the selection: the
result is the catalog filtered by membership in that prefix (failing open
if nothing matches), and when the prefix names are all valid the names of
the returned subset are exactly the prefix names. -/
theorem claim_c5_truncation (messages : List String) (ts : List FastMCPTool)
    (mt : Nat) (vs : List String)
    (hm : messages ≠ []) (ht : ts ≠ []) (hlen : vs.length > mt) :
    (select_relevant_tools messages ts mt
        (.parsed (.jobj [("tool_names", .jarr (vs.map .jstr))])) =
      if ts.filter (fun t => decide (t.name ∈ vs.take mt)) = [] then ts
      else ts.filter fun t => decide (t.name ∈ vs.take mt)) ∧
    ((∀ n ∈ vs.take mt, ∃ t ∈ ts, t.name = n) → 0 < mt →
      ∀ n : String,
        (∃ t ∈ select_relevant_tools messages ts mt
            (.parsed (.jobj [("tool_names", .jarr (vs.map .jstr))])), t.name = n) ↔
          n ∈ vs.take mt) := by
  have hpred : (fun t : FastMCPTool =>
      ((vs.map Jsonish.jstr).take mt).any fun j => jsonEqStr j t.name) =
      (fun t : FastMCPTool => decide (t.name ∈ vs.take mt)) := by
    funext t
    rw [Bool.eq_iff_iff]
    simp only [decide_eq_true_eq]
    exact sel_pred_iff vs mt t
  have hmain : select_relevant_tools messages ts mt
      (.parsed (.jobj [("tool_names", .jarr (vs.map .jstr))])) =
      if ts.filter (fun t => decide (t.name ∈ vs.take mt)) = [] then ts
      else ts.filter fun t => decide (t.name ∈ vs.take mt) := by
    unfold select_relevant_tools
    rw [if_neg hm, if_neg ht]
    have hlook : ([("tool_names", Jsonish.jarr (vs.map .jstr))].lookup "tool_names") =
        Option.some (Jsonish.jarr (vs.map .jstr)) := rfl
    simp only [hlook]
    have hlen2 : (vs.map Jsonish.jstr).length > mt := by simpa using hlen
    rw [if_pos hlen2, hpred]
  refine ⟨hmain, ?_⟩
  intro hvalid hmt n
  have htake_ne : vs.take mt ≠ [] := by
    apply List.ne_nil_of_length_pos
    rw [List.length_take]
    exact Nat.lt_min.mpr ⟨hmt, Nat.lt_trans hmt hlen⟩
  obtain ⟨n0, hn0⟩ := List.exists_mem_of_ne_nil _ htake_ne
  obtain ⟨t0, ht0, ht0n⟩ := hvalid n0 hn0
  have ht0f : t0 ∈ ts.filter fun t => decide (t.name ∈ vs.take mt) :=
    List.mem_filter.mpr ⟨ht0, by simp [ht0n, hn0]⟩
  have hfne : (ts.filter fun t => decide (t.name ∈ vs.take mt)) ≠ [] :=
    List.ne_nil_of_mem ht0f
  rw [hmain, if_neg hfne]
  constructor
  · rintro ⟨t, htmem, rfl⟩
    exact of_decide_eq_true (List.mem_filter.mp htmem).2
  · intro hn
    obtain ⟨t, htmem, htn⟩ := hvalid n hn
    exact ⟨t, List.mem_filter.mpr ⟨htmem, by simp [htn, hn]⟩, htn⟩

/-- Witness for C5: a verdict of three names with `max_tools = 2` over a
three-tool catalog selects, in catalog order, exactly the tools named by
the first two verdict names. -/
theorem claim_c5_witness :
    select_relevant_tools ["m"] [⟨"b", ""⟩, ⟨"a", ""⟩, ⟨"c", ""⟩] 2
        (.parsed (.jobj [("tool_names", .jarr (["a", "b", "c"].map Jsonish.jstr))])) =
      [⟨"b", ""⟩, ⟨"a", ""⟩] ∧
    ((∃ t ∈ select_relevant_tools ["m"] [⟨"b", ""⟩, ⟨"a", ""⟩, ⟨"c", ""⟩] 2
        (.parsed (.jobj [("tool_names", .jarr (["a", "b", "c"].map Jsonish.jstr))])),
        t.name = "a") ↔ "a" ∈ (["a", "b", "c"].take 2)) := by
  have h := claim_c5_truncation ["m"] [⟨"b", ""⟩, ⟨"a", ""⟩, ⟨"c", ""⟩] 2
    ["a", "b", "c"] (by simp) (by simp) (by decide)
  exact ⟨h.1.trans (by decide), h.2 (by decide) (by decide) "a"⟩

/-! ### Stub-generator parameter lists -/

/-- Accumulator form of the parameter-building loop: the fold partitions
the properties by presence of a default, preserving property order in each
part. -/
theorem buildParamLists_go (props : List (String × ParamInfo)) (r o : List String) :
    props.foldl
      (fun acc p =>
        match p.2.defaultVal with
        | Option.some _ => (acc.1, acc.2 ++ [renderParam p.1 p.2])
        | Option.none => (acc.1 ++ [renderParam p.1 p.2], acc.2)) (r, o) =
    (r ++ ((props.filter fun p => p.2.defaultVal.isNone).map fun p => renderParam p.1 p.2),
     o ++ ((props.filter fun p => !p.2.defaultVal.isNone).map fun p => renderParam p.1 p.2)) := by
  induction props generalizing r o with
  | nil => simp
  | cons p ps ih =>
    cases hd : p.2.defaultVal with
    | none =>
      simp only [List.foldl_cons, hd]
      rw [ih]
      simp [List.filter_cons, hd]
    | some d =>
      simp only [List.foldl_cons, hd]
      rw [ih]
      simp [List.filter_cons, hd]

/-- Counterexample to C6: a descriptor whose schema `required` list names
the defaulted parameter `a`; the generated parameter list places `a` last,
carrying its default, while the claim's required-first partition places
`a` first — so the partition is not the one induced by the `required`
list. -/
theorem claim_c6_counterexample :
    param_list [("a", ⟨Option.some "integer", Option.some (.pint 1)⟩),
                ("b", ⟨Option.some "string", Option.none⟩)] =
      ["b: str", "a: int = 1"] ∧
    specParamList [("a", ⟨Option.some "integer", Option.some (.pint 1)⟩),
                   ("b", ⟨Option.some "string", Option.none⟩)] ["a", "b"] =
      ["a: int", "b: str"] ∧
    (["b: str", "a: int = 1"] : List String) ≠ ["a: int", "b: str"] := by
  decide

/-- Claim C6 (amended): the parameter list is derived from the schema
properties and partitioned by presence of a schema default — parameters
without a default first, then parameters with one, each rendered with its
default literal; the schema `required` list is read but takes no part in
the partition. -/
theorem claim_c6_partition (properties : List (String × ParamInfo)) :
    param_list properties =
      ((properties.filter fun p => p.2.defaultVal.isNone).map fun p => renderParam p.1 p.2) ++
      ((properties.filter fun p => !p.2.defaultVal.isNone).map fun p => renderParam p.1 p.2) := by
  unfold param_list buildParamLists
  rw [buildParamLists_go]
  simp

/-- Counterexample to C7: the schema type keyword `number` is outside the
mapped set, and the rendered signature keeps it verbatim instead of
falling back to `str`. -/
theorem claim_c7_counterexample :
    renderParam "x" ⟨Option.some "number", Option.none⟩ = "x: number" ∧
    renderParam "x" ⟨Option.some "number", Option.none⟩ ≠ "x: str" := by
  decide

/-- Claim C7 (amended): the five known schema type keywords map to their
target-language names and a missing keyword falls back to `str`, but an
unrecognized keyword passes through unchanged into the signature. -/
theorem claim_c7_type_mapping :
    pyTypeName Option.none = "str" ∧
    pyTypeName (Option.some "string") = "str" ∧
    pyTypeName (Option.some "integer") = "int" ∧
    pyTypeName (Option.some "boolean") = "bool" ∧
    pyTypeName (Option.some "array") = "list" ∧
    pyTypeName (Option.some "object") = "dict" ∧
    (∀ t : String,
      t ∉ (["string", "integer", "boolean", "array", "object"] : List String) →
      pyTypeName (Option.some t) = t) := by
  refine ⟨rfl, rfl, rfl, rfl, rfl, rfl, ?_⟩
  intro t ht
  have h1 : ¬(t = "string") := fun h => ht (by simp [h])
  have h2 : ¬(t = "integer") := fun h => ht (by simp [h])
  have h3 : ¬(t = "boolean") := fun h => ht (by simp [h])
  have h4 : ¬(t = "array") := fun h => ht (by simp [h])
  have h5 : ¬(t = "object") := fun h => ht (by simp [h])
  simp [pyTypeName, h1, h2, h3, h4, h5]

/-- Witness for the amended C7 at the unmapped keyword `number`. -/
theorem claim_c7_witness :
    "number" ∉ (["string", "integer", "boolean", "array", "object"] : List String) ∧
    pyTypeName (Option.some "number") = "number" :=
  ⟨by decide, claim_c7_type_mapping.2.2.2.2.2.2 "number" (by decide)⟩

/-! ### Round-trip of multi-line strings -/

/-- Unfolding: when the list does not begin with three single quotes,
`escape3` passes the head through. -/
theorem escape3_cons (a : Char) (t : List Char)
    (h : ¬(a = sqC ∧ t.take 2 = [sqC, sqC])) :
    escape3 (a :: t) = a :: escape3 t := by
  match t with
  | [] => rfl
  | [b] => rfl
  | b :: c :: r =>
    have h2 : ¬(a = sqC ∧ b = sqC ∧ c = sqC) := by
      rintro ⟨ha, hb, hc⟩
      subst hb
      subst hc
      exact h ⟨ha, rfl⟩
    simp only [escape3]
    rw [if_neg h2]

/-- Unfolding: a leading triple quote is replaced by three escaped quotes. -/
theorem escape3_triple (r : List Char) :
    escape3 (sqC :: sqC :: sqC :: r) = [bsC, sqC, bsC, sqC, bsC, sqC] ++ escape3 r := by
  rw [escape3]
  rw [if_pos ⟨rfl, rfl, rfl⟩]

/-- Unfolding: a backslash escapes the following character. -/
theorem decodeBody_bs (d : Char) (rest : List Char) :
    decodeBody (bsC :: d :: rest) = (decodeBody rest).map fun l => decodeEsc d ++ l := by
  rw [decodeBody]
  rw [if_pos rfl]

/-- Unfolding: before a nonempty remainder, a non-backslash character that
does not open the closing triple quote is content. -/
theorem decodeBody_content (c : Char) (l : List Char) (h0 : l ≠ []) (h1 : c ≠ bsC)
    (h2 : ¬(c = sqC ∧ l.take 2 = [sqC, sqC])) :
    decodeBody (c :: l) = (decodeBody l).map fun t => c :: t := by
  match l, h0 with
  | d :: rest, _ =>
    rw [decodeBody]
    rw [if_neg h1, if_neg h2]

/-- Dropping the head preserves `getLast?` on a nonempty tail. -/
theorem getLast?_cons_of_ne (a : Char) {t : List Char} (h : t ≠ []) :
    (a :: t).getLast? = t.getLast? := by
  cases t with
  | nil => exact absurd rfl h
  | cons b l => exact List.getLast?_cons_cons

/-- Decoding inverts `escape3`: for a string with no backslash whose last
character is not a single quote, reading the escaped content followed by
the closing triple quote recovers the string. -/
theorem decodeBody_escape3 (n : Nat) : ∀ s : List Char, s.length ≤ n →
    bsC ∉ s → s.getLast? ≠ Option.some sqC →
    decodeBody (escape3 s ++ [sqC, sqC, sqC]) = Option.some s := by
  induction n with
  | zero =>
    intro s hs _ _
    have hnil : s = [] := List.length_eq_zero.mp (Nat.le_zero.mp hs)
    subst hnil
    decide
  | succ n ih =>
    intro s hs hbs hlast
    cases s with
    | nil => decide
    | cons a t =>
      have hbs_a : a ≠ bsC := fun h => hbs (by rw [← h]; exact List.mem_cons_self a t)
      have hbs_t : bsC ∉ t := fun h => hbs (List.mem_cons_of_mem a h)
      have hlt : t.length ≤ n := by
        have := hs
        simp only [List.length_cons] at this
        omega
      have hlast_t : t.getLast? ≠ Option.some sqC := by
        intro hcon
        apply hlast
        have htne : t ≠ [] := by
          intro h0
          rw [h0] at hcon
          exact Option.noConfusion hcon
        rw [getLast?_cons_of_ne a htne]
        exact hcon
      by_cases htriple : a = sqC ∧ t.take 2 = [sqC, sqC]
      · obtain ⟨ha, ht2⟩ := htriple
        subst ha
        rcases t with _ | ⟨b, _ | ⟨c, r⟩⟩
        · simp [List.take] at ht2
        · simp [List.take] at ht2
        · have hbc : b = sqC ∧ c = sqC := by
            simpa [List.take] using ht2
          obtain ⟨hb, hc⟩ := hbc
          subst hb
          subst hc
          rw [escape3_triple r]
          have hshape : ([bsC, sqC, bsC, sqC, bsC, sqC] ++ escape3 r) ++ [sqC, sqC, sqC] =
              bsC :: sqC :: (bsC :: sqC :: (bsC :: sqC :: (escape3 r ++ [sqC, sqC, sqC]))) := by
            simp
          rw [hshape, decodeBody_bs, decodeBody_bs, decodeBody_bs]
          have hbs_r : bsC ∉ r := fun h =>
            hbs_t (List.mem_cons_of_mem _ (List.mem_cons_of_mem _ h))
          have hlen_r : r.length ≤ n := by
            simp only [List.length_cons] at hlt
            omega
          have hlast_r : r.getLast? ≠ Option.some sqC := by
            by_cases hr : r = []
            · subst hr
              simp
            · intro hcon
              apply hlast_t
              rw [getLast?_cons_of_ne sqC (List.cons_ne_nil sqC r),
                getLast?_cons_of_ne sqC hr]
              exact hcon
          rw [ih r hlen_r hbs_r hlast_r]
          simp [decodeEsc]
      · rw [escape3_cons a t htriple, List.cons_append]
        by_cases ha : a = sqC
        · subst ha
          rcases t with _ | ⟨d, t2⟩
          · exact absurd (by simp) hlast
          · by_cases hd : d = sqC
            · subst hd
              rcases t2 with _ | ⟨e, t3⟩
              · exact absurd (by simp) hlast
              · by_cases he : e = sqC
                · refine absurd ⟨rfl, ?_⟩ htriple
                  rw [he]
                  rfl
                · have het : ¬(sqC = sqC ∧ (e :: t3).take 2 = [sqC, sqC]) := by
                    rintro ⟨-, hcon⟩
                    have hcon2 : e = sqC ∧ t3.take 1 = [sqC] := by
                      simpa [List.take] using hcon
                    exact he hcon2.1
                  have h1 : escape3 (sqC :: e :: t3) = sqC :: escape3 (e :: t3) :=
                    escape3_cons _ _ het
                  have h2 : escape3 (e :: t3) = e :: escape3 t3 :=
                    escape3_cons _ _ (by rintro ⟨hcon, -⟩; exact he hcon)
                  have htake : (escape3 (sqC :: e :: t3) ++ [sqC, sqC, sqC]).take 2 =
                      [sqC, e] := by
                    rw [h1, h2]
                    rfl
                  have hne : ¬(sqC = sqC ∧
                      (escape3 (sqC :: e :: t3) ++ [sqC, sqC, sqC]).take 2 = [sqC, sqC]) := by
                    rintro ⟨-, hcon⟩
                    rw [htake] at hcon
                    injection hcon with h8 h9
                    injection h9 with h9a h9b
                    exact he h9a
                  rw [decodeBody_content sqC _ (by simp) (by decide) hne,
                    ih _ hlt hbs_t hlast_t]
                  rfl
            · have h1 : escape3 (d :: t2) = d :: escape3 t2 :=
                escape3_cons _ _ (by rintro ⟨hcon, -⟩; exact hd hcon)
              have htake : (escape3 (d :: t2) ++ [sqC, sqC, sqC]).take 2 =
                  d :: (escape3 t2 ++ [sqC, sqC, sqC]).take 1 := by
                rw [h1]
                rfl
              have hne : ¬(sqC = sqC ∧
                  (escape3 (d :: t2) ++ [sqC, sqC, sqC]).take 2 = [sqC, sqC]) := by
                rintro ⟨-, hcon⟩
                rw [htake] at hcon
                injection hcon with h8 h9
                exact hd h8
              rw [decodeBody_content sqC _ (by simp) (by decide) hne,
                ih _ hlt hbs_t hlast_t]
              rfl
        · rw [decodeBody_content a _ (by simp) hbs_a (by rintro ⟨hcon, -⟩; exact ha hcon)]
          rw [ih _ hlt hbs_t hlast_t]
          rfl

/-- Counterexample to C3: the multi-line string of a newline followed by a
single quote renders as `'''<newline>''''`; the closing triple quote is
then followed by a dangling quote, the text is not a well-formed literal,
and evaluation does not yield the string back. -/
theorem claim_c3_counterexample :
    ([nlC, sqC].contains nlC || [nlC, sqC].contains crC) = true ∧
    pyEvalTripleSq (safe_repr (PyVal.pstr [nlC, sqC])) ≠ Option.some [nlC, sqC] := by
  decide

/-- Claim C3 (amended): for every multi-line string with no backslash
character and not ending in a single quote, `safe_repr` renders a
triple-quoted literal (escaping internal triple-quote sequences) whose
evaluation yields exactly the original string. -/
theorem claim_c3_roundtrip (s : List Char)
    (hml : (s.contains nlC || s.contains crC) = true)
    (hbs : bsC ∉ s) (hlast : s.getLast? ≠ Option.some sqC) :
    safe_repr (.pstr s) = [sqC, sqC, sqC] ++ escape3 s ++ [sqC, sqC, sqC] ∧
    pyEvalTripleSq (safe_repr (.pstr s)) = Option.some s := by
  have hrender : safe_repr (.pstr s) = [sqC, sqC, sqC] ++ escape3 s ++ [sqC, sqC, sqC] := by
    simp only [safe_repr]
    rw [if_pos hml]
  refine ⟨hrender, ?_⟩
  rw [hrender]
  have hassoc : [sqC, sqC, sqC] ++ escape3 s ++ [sqC, sqC, sqC] =
      sqC :: sqC :: sqC :: (escape3 s ++ [sqC, sqC, sqC]) := by
    simp
  rw [hassoc]
  unfold pyEvalTripleSq
  rw [if_pos (show List.take 3 (sqC :: sqC :: sqC :: (escape3 s ++ [sqC, sqC, sqC])) =
    [sqC, sqC, sqC] from rfl)]
  exact decodeBody_escape3 s.length s le_rfl hbs hlast

/-- Witness for the amended C3 at the string `a<newline>'''b`, which
contains a triple-quote sequence: the rendered literal evaluates back to
it. -/
theorem claim_c3_witness :
    safe_repr (.pstr [Char.ofNat 97, nlC, sqC, sqC, sqC, Char.ofNat 98]) =
      [sqC, sqC, sqC] ++ escape3 [Char.ofNat 97, nlC, sqC, sqC, sqC, Char.ofNat 98] ++
        [sqC, sqC, sqC] ∧
    pyEvalTripleSq (safe_repr (.pstr [Char.ofNat 97, nlC, sqC, sqC, sqC, Char.ofNat 98])) =
      Option.some [Char.ofNat 97, nlC, sqC, sqC, sqC, Char.ofNat 98] :=
  claim_c3_roundtrip _ (by decide) (by decide) (by decide)

end CodeActAgent
